import Mathlib

/-!
Shallow embedding of the dqlite_rs client membership layer: the validated,
versioned node registry of `src/protocol/store.rs` (NodeInfo, NodeRole,
validate_nodes, NodeStoreBackend, YamlNodeStore), the address routing of
`dial` in `src/protocol/connector.rs`, and the retry/backoff loop of the
Connector described in the design document. Rust `HashMap`s become
association lists, `u64` counters become `Nat` (no arithmetic beyond the
version increment occurs on them), and fallible operations return `Except`.
-/

/-- Decidable equality for `Except`, so that concrete runs of the fallible
operations can be checked by `decide`. -/
instance exceptDecEq [DecidableEq ε] [DecidableEq α] : DecidableEq (Except ε α)
  | .ok x, .ok y =>
    if h : x = y then .isTrue (congrArg Except.ok h)
    else .isFalse (fun hc => h (Except.ok.inj hc))
  | .error e, .error f =>
    if h : e = f then .isTrue (congrArg Except.error h)
    else .isFalse (fun hc => h (Except.error.inj hc))
  | .ok _, .error _ => .isFalse (fun hc => Except.noConfusion hc)
  | .error _, .ok _ => .isFalse (fun hc => Except.noConfusion hc)

/-- Splits a character list at every occurrence of the separator `c`;
kernel-reducible counterpart of splitting a Rust string on one character. -/
def splitOnChar (c : Char) : List Char → List (List Char)
  | [] => [[]]
  | x :: xs =>
    let r := splitOnChar c xs
    if x = c then [] :: r
    else
      match r with
      | [] => [[x]]
      | y :: ys => (x :: y) :: ys

/-- Splits at the first occurrence of `c`; `none` when `c` does not occur. -/
def splitAtChar (c : Char) : List Char → Option (List Char × List Char)
  | [] => none
  | x :: xs =>
    if x = c then some ([], xs) else (splitAtChar c xs).map (fun p => (x :: p.1, p.2))

/-- Splits at the first occurrence of two consecutive colons (IPv6 `::`). -/
def splitDoubleColon : List Char → Option (List Char × List Char)
  | [] => none
  | ':' :: ':' :: rest => some ([], rest)
  | c :: rest => (splitDoubleColon rest).map (fun p => (c :: p.1, p.2))

/-- Decimal value of a digit list (callers first check every char is a digit). -/
def digitsToNat (cs : List Char) : Nat :=
  cs.foldl (fun a c => a * 10 + (c.toNat - 48)) 0

def isHexDigitChar (c : Char) : Bool :=
  c.isDigit || ('a' ≤ c && c ≤ 'f') || ('A' ≤ c && c ≤ 'F')

/-- Models Rust's IPv4 octet parsing: one to three decimal digits, value at
most 255, no leading zero (except the single digit 0). -/
def validOctet : List Char → Bool
  | [] => false
  | c :: rest =>
    (c :: rest).all Char.isDigit && decide ((c :: rest).length ≤ 3) &&
      decide (digitsToNat (c :: rest) ≤ 255) && (rest.isEmpty || c != '0')

/-- Models Rust's port parsing: decimal digits with a `u16` value. -/
def validPortChars (cs : List Char) : Bool :=
  !cs.isEmpty && cs.all Char.isDigit && decide (digitsToNat cs < 65536)

def parseIpv4 (cs : List Char) : Bool :=
  match splitOnChar '.' cs with
  | [a, b, c, d] => validOctet a && validOctet b && validOctet c && validOctet d
  | _ => false

def validHextet (cs : List Char) : Bool :=
  !cs.isEmpty && decide (cs.length ≤ 4) && cs.all isHexDigitChar

/-- Models Rust's IPv6 address syntax: eight colon-separated hextets, or a
single `::` abbreviation with at most seven hextets around it (scope
identifiers and embedded IPv4 tails are not modelled). -/
def parseIpv6 (cs : List Char) : Bool :=
  match splitDoubleColon cs with
  | none =>
    let gs := splitOnChar ':' cs
    decide (gs.length = 8) && gs.all validHextet
  | some (l, r) =>
    (splitDoubleColon r).isNone &&
      (let ls := if l.isEmpty then [] else splitOnChar ':' l
       let rs := if r.isEmpty then [] else splitOnChar ':' r
       decide (ls.length + rs.length ≤ 7) && ls.all validHextet && rs.all validHextet)

/-- Models `std::net::SocketAddr` string parsing as used by
`NodeInfo::validate` and `dial`: `a.b.c.d:port` or `[ipv6]:port`. -/
def parseSocketAddrChars : List Char → Bool
  | '[' :: rest =>
    (match splitAtChar ']' rest with
     | some (ip, ':' :: port) => parseIpv6 ip && validPortChars port
     | _ => false)
  | cs =>
    (match splitOnChar ':' cs with
     | [ip, port] => parseIpv4 ip && validPortChars port
     | _ => false)

def parseSocketAddr (s : String) : Bool := parseSocketAddrChars s.data

/-- Kernel-reducible counterpart of `str::starts_with`. -/
def strStartsWith (s p : String) : Bool := p.data.isPrefixOf s.data

/-- Kernel-reducible counterpart of slicing the tail of an ASCII string. -/
def strDrop (s : String) (n : Nat) : String := String.mk (s.data.drop n)

/-- `NodeRole(u8)` from store.rs; only 0 (voter), 1 (stand-by), 2 (spare)
pass `NodeRole::new`. -/
structure NodeRole where
  val : Nat
deriving DecidableEq, Repr

def NodeRole.VOTER : NodeRole := ⟨0⟩

def NodeRole.STAND_BY : NodeRole := ⟨1⟩

def NodeRole.SPARE : NodeRole := ⟨2⟩

/-- `NodeRole::new`: accepts exactly the values 0, 1, 2. -/
def NodeRole.new (v : Nat) : Except String NodeRole :=
  if v = 0 ∨ v = 1 ∨ v = 2 then .ok ⟨v⟩
  else .error ("Invalid NodeRole value: " ++ toString v)

/-- `NodeInfo { id: u64, addr: String, role: NodeRole }`. Ids are `u64` in
the source; they are stored and compared, never computed with, so `Nat`
models them. -/
structure NodeInfo where
  id : Nat
  addr : String
  role : NodeRole
deriving DecidableEq, Repr

/-- `NodeStoreError` from store.rs. -/
inductive NodeStoreError where
  | InvalidNode (msg : String)
  | NotFound (id : Nat)
  | VersionConflict
  | Io (msg : String)
  | Serialization (msg : String)
  | Store (msg : String)
deriving DecidableEq, Repr

/-- `NodeInfo::validate` (store.rs lines 78-103), checks in source order:
empty rejected, then socket-address parse, then the `@`, `/`, `unix:`
prefixes, otherwise `InvalidNode`. -/
def NodeInfo.validate (n : NodeInfo) : Except NodeStoreError Unit :=
  if n.addr = "" then .error (.InvalidNode "Address is required")
  else if parseSocketAddr n.addr then .ok ()
  else if strStartsWith n.addr "@" then .ok ()
  else if strStartsWith n.addr "/" then .ok ()
  else if strStartsWith n.addr "unix:" then .ok ()
  else .error (.InvalidNode ("Invalid address: " ++ n.addr))

/-- Loop of `validate_nodes`, carrying the ids and addresses already seen
(`HashSet::insert` returning false is modelled by a membership test). -/
def validateGo : List NodeInfo → List Nat → List String → Except NodeStoreError Unit
  | [], _, _ => .ok ()
  | n :: rest, seenIds, seenAddrs =>
    match n.validate with
    | .error e => .error e
    | .ok _ =>
      if n.id ∈ seenIds then .error (.InvalidNode ("Duplicate node ID: " ++ toString n.id))
      else if n.addr ∈ seenAddrs then
        .error (.InvalidNode ("Duplicate node address: " ++ n.addr))
      else validateGo rest (n.id :: seenIds) (n.addr :: seenAddrs)

/-- `validate_nodes` (store.rs lines 106-123). -/
def validate_nodes (nodes : List NodeInfo) : Except NodeStoreError Unit :=
  validateGo nodes [] []

/-- Association-list model of `HashMap::insert`: any previous binding of the
key is dropped and the new binding recorded (a `HashMap` imposes no
iteration order; this model appends). -/
def mapInsert [DecidableEq κ] (m : List (κ × β)) (k : κ) (v : β) : List (κ × β) :=
  m.filter (fun p => decide (p.1 ≠ k)) ++ [(k, v)]

/-- Association-list model of `HashMap::get`. -/
def mapGet [DecidableEq κ] (m : List (κ × β)) (k : κ) : Option β :=
  (m.find? (fun p => decide (p.1 = k))).map Prod.snd

/-- Association-list model of `HashMap::remove` (the removed value, when the
source uses it, is read off with `mapGet` first). -/
def mapErase [DecidableEq κ] (m : List (κ × β)) (k : κ) : List (κ × β) :=
  m.filter (fun p => decide (p.1 ≠ k))

/-- `NodeStoreBackend` (store.rs lines 175-291): the two `HashMap`s become
association lists and the `u64` version counter becomes `Nat` (overflow,
after 2^64 successful mutations, is outside the modelled range). -/
structure NodeStoreBackend where
  nodes : List (Nat × NodeInfo)
  addresses : List (String × Nat)
  version : Nat
deriving DecidableEq, Repr

/-- `NodeStoreBackend::new`. -/
def NodeStoreBackend.new : NodeStoreBackend := ⟨[], [], 0⟩

/-- `NodeStoreBackend::from_nodes` (the source writes `node.address` for the
field named `addr`; the embedding reads it as that field). -/
def NodeStoreBackend.from_nodes (ns : List NodeInfo) : Except NodeStoreError NodeStoreBackend :=
  match validate_nodes ns with
  | .error e => .error e
  | .ok _ =>
    .ok ⟨ns.foldl (fun m n => mapInsert m n.id n) [],
         ns.foldl (fun m n => mapInsert m n.addr n.id) [], 0⟩

/-- `NodeStoreBackend::get_all`: the values of the id map. -/
def NodeStoreBackend.get_all (s : NodeStoreBackend) : List NodeInfo :=
  s.nodes.map Prod.snd

def NodeStoreBackend.get_by_id (s : NodeStoreBackend) (i : Nat) : Option NodeInfo :=
  mapGet s.nodes i

def NodeStoreBackend.get_by_address (s : NodeStoreBackend) (a : String) : Option NodeInfo :=
  match mapGet s.addresses a with
  | some i => mapGet s.nodes i
  | none => none

/-- `NodeStoreBackend::set_all`: validate the whole list first, then clear
both maps, reinsert every node, and bump the version. -/
def NodeStoreBackend.set_all (s : NodeStoreBackend) (ns : List NodeInfo) :
    Except NodeStoreError NodeStoreBackend :=
  match validate_nodes ns with
  | .error e => .error e
  | .ok _ =>
    .ok ⟨ns.foldl (fun m n => mapInsert m n.id n) [],
         ns.foldl (fun m n => mapInsert m n.addr n.id) [], s.version + 1⟩

/-- `NodeStoreBackend::upsert`: validates only the single node; when the id
already exists its old address mapping is removed; then both maps are
updated and the version bumped. -/
def NodeStoreBackend.upsert (s : NodeStoreBackend) (n : NodeInfo) :
    Except NodeStoreError NodeStoreBackend :=
  match n.validate with
  | .error e => .error e
  | .ok _ =>
    let addrs :=
      match mapGet s.nodes n.id with
      | some old => mapErase s.addresses old.addr
      | none => s.addresses
    .ok ⟨mapInsert s.nodes n.id n, mapInsert addrs n.addr n.id, s.version + 1⟩

/-- `NodeStoreBackend::remove`: drops the node and its address mapping and
bumps the version only when the id was present. -/
def NodeStoreBackend.remove (s : NodeStoreBackend) (i : Nat) : Bool × NodeStoreBackend :=
  match mapGet s.nodes i with
  | some node =>
    (true, ⟨mapErase s.nodes i, mapErase s.addresses node.addr, s.version + 1⟩)
  | none => (false, s)

/-- `NodeStoreBackend::set_if_version`: compare the current version with the
expected one before delegating to `set_all`. -/
def NodeStoreBackend.set_if_version (s : NodeStoreBackend) (ns : List NodeInfo)
    (expected : Nat) : Except NodeStoreError NodeStoreBackend :=
  if s.version ≠ expected then .error .VersionConflict
  else s.set_all ns

/-- `YamlNodeStore`: backend plus the snapshot file at the store's path.
`serde_yaml` round-trips `Vec<NodeInfo>`, so the file content is modelled as
the node list it decodes to; `none` models an absent file. -/
structure YamlNodeStore where
  backend : NodeStoreBackend
  file : Option (List NodeInfo)
deriving DecidableEq, Repr

/-- `YamlNodeStore::new` (store.rs lines 346-360): when the file exists its
deserialized node list is loaded through `NodeStoreBackend::from_nodes`,
otherwise an empty backend is used. -/
def YamlNodeStore.new (file : Option (List NodeInfo)) : Except NodeStoreError YamlNodeStore :=
  match file with
  | some content =>
    match NodeStoreBackend.from_nodes content with
    | .error e => .error e
    | .ok b => .ok ⟨b, file⟩
  | none => .ok ⟨NodeStoreBackend.new, none⟩

/-- `YamlNodeStore::save` (store.rs lines 362-376): serializes `get_all` and
atomically replaces the file, modelled as overwriting the file content. -/
def YamlNodeStore.save (s : YamlNodeStore) : YamlNodeStore :=
  ⟨s.backend, some s.backend.get_all⟩

def YamlNodeStore.set_all (s : YamlNodeStore) (ns : List NodeInfo) :
    Except NodeStoreError YamlNodeStore :=
  match s.backend.set_all ns with
  | .error e => .error e
  | .ok b => .ok (YamlNodeStore.save ⟨b, s.file⟩)

def YamlNodeStore.upsert (s : YamlNodeStore) (n : NodeInfo) :
    Except NodeStoreError YamlNodeStore :=
  match s.backend.upsert n with
  | .error e => .error e
  | .ok b => .ok (YamlNodeStore.save ⟨b, s.file⟩)

def YamlNodeStore.remove (s : YamlNodeStore) (i : Nat) : Bool × YamlNodeStore :=
  let r := s.backend.remove i
  if r.1 then (true, YamlNodeStore.save ⟨r.2, s.file⟩) else (false, ⟨r.2, s.file⟩)

/-- Routing decision of `dial` (connector.rs lines 152-162): the connection
itself is a network effect, so the embedding returns which kind of socket
would be dialled and with what target. -/
inductive DialRoute where
  | unixSock (path : String)
  | tcpSock (addr : String)
deriving DecidableEq, Repr

/-- `dial`: a `unix:`-prefixed address goes to a Unix-domain dial with the
remainder as path; anything else must parse as an IP:port and goes to a TCP
dial; a parse failure errors before any socket operation. -/
def dial (addr : String) : Except String DialRoute :=
  if strStartsWith addr "unix:" then .ok (.unixSock (strDrop addr 5))
  else if parseSocketAddr addr then .ok (.tcpSock addr)
  else .error "invalid socket address syntax"

/-- Outcome of a `connect` run: the address that succeeded (if any), the
number of full passes made over the candidate list, and the backoff delays
(same unit as factor and cap) slept between consecutive passes. -/
structure ConnectOutcome where
  result : Option String
  passes : Nat
  delays : List Nat
deriving DecidableEq, Repr

/-- One pass: dial each candidate in order, stopping at the first success. -/
def tryCandidates (ok : String → Bool) : List String → Option String
  | [] => none
  | c :: rest => if ok c then some c else tryCandidates ok rest

/-- Modelled from the spec: `Connector::connect` is only declared in
connector.rs (the `Connector` struct, lines 166-173); its retry loop is not
present under src/. Design document section 4.2 steps 3-5: pass `k`
(1-based) dials every candidate; after a fully failed pass a delay of
`min (backoff_factor * 2 ^ (k - 1)) backoff_cap` is slept before pass
`k + 1`; after `retry_limit` failed passes the call fails with an
exhausted-retries error (modelled by `result = none`). No delay precedes
the first pass. `dialOk k c` is the dial outcome for candidate `c` during
pass `k`. -/
def connectGo (dialOk : Nat → String → Bool) (cands : List String) (factor cap : Nat) :
    Nat → Nat → List Nat → ConnectOutcome
  | k, 0, ds => ⟨none, k - 1, ds⟩
  | k, remaining + 1, ds =>
    match tryCandidates (dialOk k) cands with
    | some c => ⟨some c, k, ds⟩
    | none =>
      if remaining = 0 then ⟨none, k, ds⟩
      else
        connectGo dialOk cands factor cap (k + 1) remaining
          (ds ++ [min (factor * 2 ^ (k - 1)) cap])

/-- Modelled from the spec: entry point of the retry loop, starting at pass 1
with no delay taken and `retry_limit` passes available. -/
def connect (dialOk : Nat → String → Bool) (cands : List String)
    (factor cap retryLimit : Nat) : ConnectOutcome :=
  connectGo dialOk cands factor cap 1 retryLimit []

/-- Sample node used by the concrete witnesses below. -/
def nodeA : NodeInfo := ⟨1, "@a", NodeRole.VOTER⟩

/-- Second sample node, address distinct from `nodeA`. -/
def nodeB : NodeInfo := ⟨2, "@b", NodeRole.VOTER⟩

/-- Sample node with a fresh id but the same address as `nodeA`. -/
def nodeA2 : NodeInfo := ⟨2, "@a", NodeRole.VOTER⟩

theorem tryCandidates_none (ok : String → Bool) (cands : List String)
    (h : ∀ c, ok c = false) : tryCandidates ok cands = none := by
  induction cands with
  | nil => rfl
  | cons c rest ih => simp [tryCandidates, h c, ih]

theorem connectGo_succ (dialOk : Nat → String → Bool) (cands : List String)
    (factor cap k rem : Nat) (ds : List Nat) :
    connectGo dialOk cands factor cap k (rem + 1) ds =
      match tryCandidates (dialOk k) cands with
      | some c => ⟨some c, k, ds⟩
      | none =>
        if rem = 0 then ⟨none, k, ds⟩
        else
          connectGo dialOk cands factor cap (k + 1) rem
            (ds ++ [min (factor * 2 ^ (k - 1)) cap]) := rfl

theorem connectGo_all_fail (dialOk : Nat → String → Bool) (cands : List String)
    (factor cap : Nat) (hd : ∀ k c, dialOk k c = false) :
    ∀ (rem j : Nat) (ds : List Nat),
      connectGo dialOk cands factor cap (j + 1) (rem + 1) ds =
        ⟨none, j + 1 + rem,
          ds ++ (List.range rem).map (fun i => min (factor * 2 ^ (j + i)) cap)⟩ := by
  intro rem
  induction rem with
  | zero =>
    intro j ds
    rw [connectGo_succ]
    simp [tryCandidates_none _ _ (hd (j + 1))]
  | succ m ih =>
    intro j ds
    rw [connectGo_succ]
    simp only [tryCandidates_none _ _ (hd (j + 1))]
    rw [if_neg (Nat.succ_ne_zero m)]
    simp only [Nat.add_sub_cancel]
    rw [ih (j + 1) (ds ++ [min (factor * 2 ^ j) cap])]
    have hdel : (List.range (m + 1)).map (fun i => min (factor * 2 ^ (j + i)) cap) =
        min (factor * 2 ^ j) cap ::
          (List.range m).map (fun i => min (factor * 2 ^ (j + 1 + i)) cap) := by
      rw [List.range_succ_eq_map, List.map_cons, List.map_map]
      refine congrArg₂ List.cons (by simp) (List.map_congr_left (fun i _ => ?_))
      show min (factor * 2 ^ (j + (i + 1))) cap = min (factor * 2 ^ (j + 1 + i)) cap
      have he : j + (i + 1) = j + 1 + i := by omega
      rw [he]
    congr 1
    · omega
    · rw [hdel, List.append_assoc, List.singleton_append]

theorem validateGo_ok_iff (ns : List NodeInfo) (si : List Nat) (sa : List String) :
    validateGo ns si sa = .ok () ↔
      ((ns.map NodeInfo.id).Nodup ∧ (ns.map NodeInfo.addr).Nodup ∧
        (∀ n ∈ ns, n.validate = .ok ()) ∧ (∀ n ∈ ns, n.id ∉ si ∧ n.addr ∉ sa)) := by
  induction ns generalizing si sa with
  | nil => simp [validateGo]
  | cons n rest ih =>
    constructor
    · intro h
      cases hval : n.validate with
      | error e =>
        simp only [validateGo, hval] at h
        exact absurd h (fun hc => Except.noConfusion hc)
      | ok u =>
        cases u
        simp only [validateGo, hval] at h
        by_cases hid : n.id ∈ si
        · rw [if_pos hid] at h
          exact absurd h (fun hc => Except.noConfusion hc)
        rw [if_neg hid] at h
        by_cases haddr : n.addr ∈ sa
        · rw [if_pos haddr] at h
          exact absurd h (fun hc => Except.noConfusion hc)
        rw [if_neg haddr] at h
        obtain ⟨h1, h2, h3, h4⟩ := (ih _ _).1 h
        refine ⟨?_, ?_, ?_, ?_⟩
        · rw [List.map_cons, List.nodup_cons]
          refine ⟨fun hmem => ?_, h1⟩
          obtain ⟨m, hm, hmid⟩ := List.mem_map.1 hmem
          exact (h4 m hm).1 (by rw [hmid]; exact List.mem_cons_self _ _)
        · rw [List.map_cons, List.nodup_cons]
          refine ⟨fun hmem => ?_, h2⟩
          obtain ⟨m, hm, hma⟩ := List.mem_map.1 hmem
          exact (h4 m hm).2 (by rw [hma]; exact List.mem_cons_self _ _)
        · intro m hm
          rcases List.mem_cons.1 hm with rfl | hm'
          · exact hval
          · exact h3 m hm'
        · intro m hm
          rcases List.mem_cons.1 hm with rfl | hm'
          · exact ⟨hid, haddr⟩
          · exact ⟨fun hx => (h4 m hm').1 (List.mem_cons_of_mem _ hx),
              fun hx => (h4 m hm').2 (List.mem_cons_of_mem _ hx)⟩
    · rintro ⟨h1, h2, h3, h4⟩
      have hval : n.validate = .ok () := h3 n (List.mem_cons_self _ _)
      have hid : n.id ∉ si := (h4 n (List.mem_cons_self _ _)).1
      have haddr : n.addr ∉ sa := (h4 n (List.mem_cons_self _ _)).2
      simp only [validateGo, hval]
      rw [if_neg hid, if_neg haddr]
      rw [List.map_cons, List.nodup_cons] at h1 h2
      refine (ih _ _).2 ⟨h1.2, h2.2, ?_, ?_⟩
      · exact fun m hm => h3 m (List.mem_cons_of_mem _ hm)
      · intro m hm
        constructor
        · intro hx
          rcases List.mem_cons.1 hx with heq | hx'
          · exact h1.1 (List.mem_map.2 ⟨m, hm, heq⟩)
          · exact (h4 m (List.mem_cons_of_mem _ hm)).1 hx'
        · intro hx
          rcases List.mem_cons.1 hx with heq | hx'
          · exact h2.1 (List.mem_map.2 ⟨m, hm, heq⟩)
          · exact (h4 m (List.mem_cons_of_mem _ hm)).2 hx'

theorem validate_nodes_ok_iff (ns : List NodeInfo) :
    validate_nodes ns = .ok () ↔
      ((ns.map NodeInfo.id).Nodup ∧ (ns.map NodeInfo.addr).Nodup ∧
        ∀ n ∈ ns, n.validate = .ok ()) := by
  unfold validate_nodes
  rw [validateGo_ok_iff]
  simp

theorem foldl_mapInsert_fresh {α κ β : Type} [DecidableEq κ] (key : α → κ) (val : α → β)
    (l : List α) :
    ∀ acc : List (κ × β),
      (l.map key).Nodup → (∀ x ∈ l, ∀ p ∈ acc, p.1 ≠ key x) →
      l.foldl (fun m x => mapInsert m (key x) (val x)) acc =
        acc ++ l.map (fun x => (key x, val x)) := by
  induction l with
  | nil =>
    intro acc _ _
    simp
  | cons x rest ih =>
    intro acc hnd hdisj
    rw [List.foldl_cons]
    have hins : mapInsert acc (key x) (val x) = acc ++ [(key x, val x)] := by
      unfold mapInsert
      congr 1
      refine List.filter_eq_self.2 (fun p hp => ?_)
      simpa using hdisj x (List.mem_cons_self _ _) p hp
    rw [List.map_cons, List.nodup_cons] at hnd
    have hdisj' : ∀ y ∈ rest, ∀ p ∈ acc ++ [(key x, val x)], p.1 ≠ key y := by
      intro y hy p hp
      rcases List.mem_append.1 hp with hpa | hpx
      · exact hdisj y (List.mem_cons_of_mem _ hy) p hpa
      · have hpe : p = (key x, val x) := List.mem_singleton.1 hpx
        subst hpe
        intro hkk
        exact hnd.1 (List.mem_map.2 ⟨y, hy, hkk.symm⟩)
    rw [hins, ih (acc ++ [(key x, val x)]) hnd.2 hdisj']
    simp

theorem foldl_insert_nodes (ns : List NodeInfo) (h : (ns.map NodeInfo.id).Nodup) :
    ns.foldl (fun m n => mapInsert m n.id n) [] = ns.map (fun n => (n.id, n)) := by
  have h2 := foldl_mapInsert_fresh NodeInfo.id (fun n => n) ns ([] : List (Nat × NodeInfo)) h
    (by intro x hx p hp; cases hp)
  simpa using h2

/-- C1, code evaluated at the failing input: on a store holding node 1 at
address "@a" — a reachable state satisfying the snapshot invariant —
`upsert` of node 2 with that same address succeeds instead of failing, and
afterwards the stored addresses are no longer pairwise distinct (while the
ids still are, and the address index now maps "@a" to node 2 only). -/
theorem upsert_duplicate_address_accepted :
    NodeStoreBackend.from_nodes [nodeA] = .ok ⟨[(1, nodeA)], [("@a", 1)], 0⟩ ∧
    NodeStoreBackend.upsert ⟨[(1, nodeA)], [("@a", 1)], 0⟩ nodeA2 =
      .ok ⟨[(1, nodeA), (2, nodeA2)], [("@a", 2)], 1⟩ ∧
    ¬ ((NodeStoreBackend.get_all ⟨[(1, nodeA), (2, nodeA2)], [("@a", 2)], 1⟩).map
        NodeInfo.addr).Nodup ∧
    ((NodeStoreBackend.get_all ⟨[(1, nodeA), (2, nodeA2)], [("@a", 2)], 1⟩).map
        NodeInfo.id).Nodup :=
  ⟨by decide, by decide, by decide, by decide⟩

/-- C2: with a valid node list, `set_if_version` succeeds exactly when the
expected version equals the current one; on mismatch it fails with
`VersionConflict`, and since the embedding returns a new state only on
success, the prior contents and version stand. -/
theorem set_if_version_characterization (s : NodeStoreBackend) (ns : List NodeInfo)
    (v : Nat) (hv : validate_nodes ns = .ok ()) :
    ((∃ s', s.set_if_version ns v = .ok s') ↔ v = s.version) ∧
    (v ≠ s.version → s.set_if_version ns v = .error .VersionConflict) := by
  constructor
  · constructor
    · rintro ⟨s', hs'⟩
      by_contra hne
      unfold NodeStoreBackend.set_if_version at hs'
      rw [if_pos (fun h => hne h.symm)] at hs'
      exact Except.noConfusion hs'
    · intro hveq
      unfold NodeStoreBackend.set_if_version
      rw [if_neg (fun h => h hveq.symm)]
      simp only [NodeStoreBackend.set_all, hv]
      exact ⟨_, rfl⟩
  · intro hne
    unfold NodeStoreBackend.set_if_version
    rw [if_pos (fun h => hne h.symm)]

theorem set_if_version_characterization_witness :
    ((∃ s', NodeStoreBackend.new.set_if_version [nodeA] 0 = .ok s') ↔
      0 = NodeStoreBackend.new.version) ∧
    (0 ≠ NodeStoreBackend.new.version →
      NodeStoreBackend.new.set_if_version [nodeA] 0 = .error .VersionConflict) :=
  set_if_version_characterization NodeStoreBackend.new [nodeA] 0 (by decide)

/-- C3: a list with a duplicate id, a duplicate address, or any node with an
invalid address makes `set_all` fail; the embedding returns a new state only
on success, so the prior contents and version counter stand. -/
theorem set_all_rejects_invalid (s : NodeStoreBackend) (ns : List NodeInfo)
    (h : ¬ (ns.map NodeInfo.id).Nodup ∨ ¬ (ns.map NodeInfo.addr).Nodup ∨
      ∃ n ∈ ns, n.validate ≠ .ok ()) :
    ∃ e, s.set_all ns = .error e := by
  cases hv : validate_nodes ns with
  | error e =>
    refine ⟨e, ?_⟩
    simp only [NodeStoreBackend.set_all, hv]
  | ok u =>
    cases u
    obtain ⟨h1, h2, h3⟩ := (validate_nodes_ok_iff ns).1 hv
    rcases h with h | h | ⟨n, hn, hval⟩
    · exact absurd h1 h
    · exact absurd h2 h
    · exact absurd (h3 n hn) hval

theorem set_all_rejects_invalid_witness :
    ∃ e, NodeStoreBackend.new.set_all [nodeA, nodeA2] = .error e :=
  set_all_rejects_invalid NodeStoreBackend.new [nodeA, nodeA2]
    (Or.inr (Or.inl (by decide)))

/-- C4: a node list with pairwise-distinct ids, pairwise-distinct addresses
and valid addresses makes `set_all` succeed; `get_all` on the result returns
exactly the input nodes up to order, and the version grows by exactly one. -/
theorem set_all_roundtrip (s : NodeStoreBackend) (ns : List NodeInfo)
    (h1 : (ns.map NodeInfo.id).Nodup) (h2 : (ns.map NodeInfo.addr).Nodup)
    (h3 : ∀ n ∈ ns, n.validate = .ok ()) :
    ∃ s', s.set_all ns = .ok s' ∧ s'.get_all.Perm ns ∧ s'.version = s.version + 1 := by
  have hv : validate_nodes ns = .ok () := (validate_nodes_ok_iff ns).2 ⟨h1, h2, h3⟩
  refine ⟨⟨ns.foldl (fun m n => mapInsert m n.id n) [],
    ns.foldl (fun m n => mapInsert m n.addr n.id) [], s.version + 1⟩, ?_, ?_, rfl⟩
  · simp only [NodeStoreBackend.set_all, hv]
  · show ((ns.foldl (fun m n => mapInsert m n.id n) []).map Prod.snd).Perm ns
    rw [foldl_insert_nodes ns h1, List.map_map]
    have hc : Prod.snd ∘ (fun n : NodeInfo => (n.id, n)) = fun n => n := rfl
    rw [hc, List.map_id']

theorem set_all_roundtrip_witness :
    ∃ s', NodeStoreBackend.new.set_all [nodeA, nodeB] = .ok s' ∧
      s'.get_all.Perm [nodeA, nodeB] ∧ s'.version = NodeStoreBackend.new.version + 1 :=
  set_all_roundtrip NodeStoreBackend.new [nodeA, nodeB] (by decide) (by decide) (by decide)

/-- C5: `NodeInfo` validation accepts exactly the non-empty addresses that
parse as an IP:port or start with "@", "/" or "unix:", and every rejected
address yields an `InvalidNode` error. -/
theorem validate_addr_characterization (i : Nat) (a : String) (r : NodeRole) :
    (NodeInfo.validate ⟨i, a, r⟩ = .ok () ↔
      (a ≠ "" ∧ (parseSocketAddr a = true ∨ strStartsWith a "@" = true ∨
        strStartsWith a "/" = true ∨ strStartsWith a "unix:" = true))) ∧
    (NodeInfo.validate ⟨i, a, r⟩ = .ok () ∨
      ∃ msg, NodeInfo.validate ⟨i, a, r⟩ = .error (.InvalidNode msg)) := by
  constructor
  · unfold NodeInfo.validate
    split_ifs with h0 h1 h2 h3 h4 <;> simp_all
  · unfold NodeInfo.validate
    split_ifs <;> first | exact Or.inl rfl | exact Or.inr ⟨_, rfl⟩

theorem validate_addr_characterization_witness :
    (NodeInfo.validate ⟨1, "@a", NodeRole.VOTER⟩ = .ok () ↔
      ("@a" ≠ "" ∧ (parseSocketAddr "@a" = true ∨ strStartsWith "@a" "@" = true ∨
        strStartsWith "@a" "/" = true ∨ strStartsWith "@a" "unix:" = true))) ∧
    (NodeInfo.validate ⟨1, "@a", NodeRole.VOTER⟩ = .ok () ∨
      ∃ msg, NodeInfo.validate ⟨1, "@a", NodeRole.VOTER⟩ = .error (.InvalidNode msg)) :=
  validate_addr_characterization 1 "@a" NodeRole.VOTER

/-- C6 counterexample: on the empty store, `remove 5` completes successfully
(returning `false`, as the id is absent) yet the version counter is
unchanged — a successful `remove` call after which the version did not grow
by one. -/
theorem remove_missing_no_increment :
    (NodeStoreBackend.new.remove 5).1 = false ∧
    (NodeStoreBackend.new.remove 5).2.version = NodeStoreBackend.new.version :=
  ⟨by decide, by decide⟩

/-- C6 amended: `remove` returns true exactly when a node with the id was
present; a removal that returns true increments the version by exactly one,
and a call that returns false leaves the store (contents and version)
unchanged. -/
theorem remove_characterization (s : NodeStoreBackend) (i : Nat) :
    ((s.remove i).1 = true ↔ (s.get_by_id i).isSome = true) ∧
    ((s.remove i).1 = true → (s.remove i).2.version = s.version + 1) ∧
    ((s.remove i).1 = false → (s.remove i).2 = s) := by
  unfold NodeStoreBackend.remove NodeStoreBackend.get_by_id
  cases h : mapGet s.nodes i <;> simp [h]

theorem remove_characterization_witness :
    (((⟨[(1, nodeA)], [("@a", 1)], 0⟩ : NodeStoreBackend).remove 1).1 = true ↔
      ((⟨[(1, nodeA)], [("@a", 1)], 0⟩ : NodeStoreBackend).get_by_id 1).isSome = true) ∧
    (((⟨[(1, nodeA)], [("@a", 1)], 0⟩ : NodeStoreBackend).remove 1).1 = true →
      ((⟨[(1, nodeA)], [("@a", 1)], 0⟩ : NodeStoreBackend).remove 1).2.version =
        (⟨[(1, nodeA)], [("@a", 1)], 0⟩ : NodeStoreBackend).version + 1) ∧
    (((⟨[(1, nodeA)], [("@a", 1)], 0⟩ : NodeStoreBackend).remove 1).1 = false →
      ((⟨[(1, nodeA)], [("@a", 1)], 0⟩ : NodeStoreBackend).remove 1).2 =
        ⟨[(1, nodeA)], [("@a", 1)], 0⟩) :=
  remove_characterization ⟨[(1, nodeA)], [("@a", 1)], 0⟩ 1

/-- C7: `dial` routes a `unix:`-prefixed address to a Unix-domain dial on
the remainder after the prefix, routes any other address that parses as an
IP:port to a TCP dial, and rejects everything else with an error before any
socket operation. -/
theorem dial_routing (a : String) :
    (strStartsWith a "unix:" = true → dial a = .ok (.unixSock (strDrop a 5))) ∧
    (strStartsWith a "unix:" = false → parseSocketAddr a = true →
      dial a = .ok (.tcpSock a)) ∧
    (strStartsWith a "unix:" = false → parseSocketAddr a = false →
      ∃ e, dial a = .error e) := by
  unfold dial
  refine ⟨fun h => ?_, fun h1 h2 => ?_, fun h1 h2 => ?_⟩
  · rw [if_pos h]
  · rw [if_neg (by simp [h1]), if_pos h2]
  · rw [if_neg (by simp [h1]), if_neg (by simp [h2])]
    exact ⟨_, rfl⟩

theorem dial_routing_witness :
    dial "unix:/tmp/x.sock" = .ok (.unixSock (strDrop "unix:/tmp/x.sock" 5)) ∧
    dial "127.0.0.1:9001" = .ok (.tcpSock "127.0.0.1:9001") ∧
    (∃ e, dial "not-an-address" = .error e) :=
  ⟨(dial_routing "unix:/tmp/x.sock").1 (by decide),
   (dial_routing "127.0.0.1:9001").2.1 (by decide) (by decide),
   (dial_routing "not-an-address").2.2 (by decide) (by decide)⟩

/-- C8, code evaluated at the failing input: starting from an absent file,
upsert node 1 at "@a" and then node 2 at the same "@a"; both mutations
succeed and persist the full node list, but constructing a new store
against the persisted file then fails — `from_nodes` rejects the duplicated
address that `upsert` itself produced — instead of reproducing the node
set. -/
theorem yaml_reopen_after_upsert_fails :
    YamlNodeStore.upsert ⟨NodeStoreBackend.new, none⟩ nodeA =
      .ok ⟨⟨[(1, nodeA)], [("@a", 1)], 1⟩, some [nodeA]⟩ ∧
    YamlNodeStore.upsert ⟨⟨[(1, nodeA)], [("@a", 1)], 1⟩, some [nodeA]⟩ nodeA2 =
      .ok ⟨⟨[(1, nodeA), (2, nodeA2)], [("@a", 2)], 2⟩, some [nodeA, nodeA2]⟩ ∧
    YamlNodeStore.new (some [nodeA, nodeA2]) =
      .error (.InvalidNode "Duplicate node address: @a") :=
  ⟨by decide, by decide, by decide⟩

/-- C9 (the retry loop is modelled from the spec, `connect` above): when
every dial fails on every pass and the retry limit is `r ≥ 1`, `connect`
makes exactly `r` full passes and fails; the delays slept between
consecutive passes are exactly `min (factor * 2 ^ (k - 1)) cap` between
pass `k` and `k + 1` — the list has `r - 1` entries, so no delay precedes
the first pass. -/
theorem connect_backoff_exhaustion (dialOk : Nat → String → Bool) (cands : List String)
    (factor cap r : Nat) (hr : 1 ≤ r) (hd : ∀ k c, dialOk k c = false) :
    connect dialOk cands factor cap r =
      ⟨none, r, (List.range (r - 1)).map (fun i => min (factor * 2 ^ i) cap)⟩ := by
  obtain ⟨m, rfl⟩ : ∃ m, r = m + 1 := ⟨r - 1, by omega⟩
  unfold connect
  rw [connectGo_all_fail dialOk cands factor cap hd m 0 []]
  simp
  omega

theorem connect_backoff_exhaustion_witness :
    connect (fun _ _ => false) ["@a", "@b"] 100 1000 2 =
      ⟨none, 2, (List.range (2 - 1)).map (fun i => min (100 * 2 ^ i) 1000)⟩ :=
  connect_backoff_exhaustion (fun _ _ => false) ["@a", "@b"] 100 1000 2 (by decide)
    (fun _ _ => rfl)

/-- C10: a backend constructed by `new` has version 0, and one constructed
by `from_nodes` from any list it accepts also has version 0 — loading
initial nodes is not counted as a mutation. -/
theorem construction_version_zero :
    NodeStoreBackend.new.version = 0 ∧
    ∀ ns s, NodeStoreBackend.from_nodes ns = .ok s → s.version = 0 := by
  refine ⟨rfl, fun ns s h => ?_⟩
  cases hv : validate_nodes ns with
  | error e =>
    simp only [NodeStoreBackend.from_nodes, hv] at h
    exact Except.noConfusion h
  | ok u =>
    cases u
    simp only [NodeStoreBackend.from_nodes, hv] at h
    rw [← Except.ok.inj h]

theorem construction_version_zero_witness :
    NodeStoreBackend.new.version = 0 ∧
    (⟨[(1, nodeA)], [("@a", 1)], 0⟩ : NodeStoreBackend).version = 0 :=
  ⟨construction_version_zero.1,
   construction_version_zero.2 [nodeA] ⟨[(1, nodeA)], [("@a", 1)], 0⟩ (by decide)⟩
